import Mathlib

/-
Verification of the caching subsystem (CacheManager) of the storybook-mcp-server
repository, shallowly embedded from src/storybook-mcp-server/src/testGenerator.ts.

Modelling conventions:
* JS `Map` is modelled as an insertion-ordered association list (set replaces in
  place, otherwise appends; iteration order is insertion order, as in JS).
* Timestamps (`Date.now()`) are `Int` values passed explicitly.
* `async`/`await` and disk I/O are modelled by explicit state passing; the disk
  tier (one `{key}.cache` file per key under the cache directory) is a second
  association list in the state.
* `computeFn` outcomes are modelled as an `Except` value supplied to `get`;
  `computeFileHash` results are supplied as an explicit string argument
  (the source returns "" when the read fails).
* `crypto.createHash("sha256").update(input).digest("hex")` is implemented
  bit-for-bit below (UTF-8 encoding, SHA-256 compression, lowercase hex).
* `new RegExp(pattern); regex.test(key)` is modelled for metacharacter-free
  patterns (all patterns in the spec scenarios are literal), where it is exact
  substring search.
-/

/-! ## SHA-256 (the source's generateKey) -/

def rotr (n x : Nat) : Nat :=
  ((x >>> n) ||| (x <<< (32 - n))) % 4294967296

def smallSigma0 (x : Nat) : Nat := (rotr 7 x) ^^^ (rotr 18 x) ^^^ (x >>> 3)

def smallSigma1 (x : Nat) : Nat := (rotr 17 x) ^^^ (rotr 19 x) ^^^ (x >>> 10)

def bigSigma0 (x : Nat) : Nat := (rotr 2 x) ^^^ (rotr 13 x) ^^^ (rotr 22 x)

def bigSigma1 (x : Nat) : Nat := (rotr 6 x) ^^^ (rotr 11 x) ^^^ (rotr 25 x)

def chF (x y z : Nat) : Nat := (x &&& y) ^^^ ((x ^^^ 4294967295) &&& z)

def majF (x y z : Nat) : Nat := (x &&& y) ^^^ (x &&& z) ^^^ (y &&& z)

def K256 : List Nat :=
  [1116352408, 1899447441, 3049323471, 3921009573, 961987163,
   1508970993, 2453635748, 2870763221, 3624381080, 310598401,
   607225278, 1426881987, 1925078388, 2162078206, 2614888103,
   3248222580, 3835390401, 4022224774, 264347078, 604807628,
   770255983, 1249150122, 1555081692, 1996064986, 2554220882,
   2821834349, 2952996808, 3210313671, 3336571891, 3584528711,
   113926993, 338241895, 666307205, 773529912, 1294757372,
   1396182291, 1695183700, 1986661051, 2177026350, 2456956037,
   2730485921, 2820302411, 3259730800, 3345764771, 3516065817,
   3600352804, 4094571909, 275423344, 430227734, 506948616,
   659060556, 883997877, 958139571, 1322822218, 1537002063,
   1747873779, 1955562222, 2024104815, 2227730452, 2361852424,
   2428436474, 2756734187, 3204031479, 3329325298]

def H256 : List Nat :=
  [1779033703, 3144134277, 1013904242, 2773480762,
   1359893119, 2600822924, 528734635, 1541459225]

def chunk64Go : Nat → List Nat → List (List Nat)
  | 0, _ => []
  | _ + 1, [] => []
  | fuel + 1, l => l.take 64 :: chunk64Go fuel (l.drop 64)

def chunks64 (l : List Nat) : List (List Nat) := chunk64Go l.length l

def wordsGo : Nat → List Nat → List Nat
  | 0, _ => []
  | n + 1, bytes =>
      (bytes.getD 0 0 * 16777216 + bytes.getD 1 0 * 65536 +
       bytes.getD 2 0 * 256 + bytes.getD 3 0) :: wordsGo n (bytes.drop 4)

def wordsOfBlock (b : List Nat) : List Nat := wordsGo 16 b

def extendWords (w : List Nat) : Nat → List Nat
  | 0 => w
  | n + 1 =>
      let w₁ := extendWords w n
      let i := w₁.length
      w₁ ++ [(smallSigma1 (w₁.getD (i - 2) 0) + w₁.getD (i - 7) 0 +
              smallSigma0 (w₁.getD (i - 15) 0) + w₁.getD (i - 16) 0) % 4294967296]

def roundStep (st : List Nat) (kw : Nat × Nat) : List Nat :=
  let a := st.getD 0 0
  let b := st.getD 1 0
  let c := st.getD 2 0
  let d := st.getD 3 0
  let e := st.getD 4 0
  let f := st.getD 5 0
  let g := st.getD 6 0
  let h := st.getD 7 0
  let t1 := (h + bigSigma1 e + chF e f g + kw.1 + kw.2) % 4294967296
  let t2 := (bigSigma0 a + majF a b c) % 4294967296
  [(t1 + t2) % 4294967296, a, b, c, (d + t1) % 4294967296, e, f, g]

def processBlock (h : List Nat) (block : List Nat) : List Nat :=
  let w := extendWords (wordsOfBlock block) 48
  let st := (K256.zip w).foldl roundStep h
  List.zipWith (fun x y => (x + y) % 4294967296) h st

def lenBytes (bitLen : Nat) : List Nat :=
  [bitLen / 72057594037927936 % 256, bitLen / 281474976710656 % 256,
   bitLen / 1099511627776 % 256, bitLen / 4294967296 % 256,
   bitLen / 16777216 % 256, bitLen / 65536 % 256,
   bitLen / 256 % 256, bitLen % 256]

def sha256Bytes (msg : List Nat) : List Nat :=
  let padZeros := (120 - ((msg.length + 1) % 64)) % 64
  let padded := msg ++ [128] ++ List.replicate padZeros 0 ++ lenBytes (msg.length * 8)
  let hs := (chunks64 padded).foldl processBlock H256
  (hs.map (fun w => [w / 16777216 % 256, w / 65536 % 256, w / 256 % 256, w % 256])).flatten

def utf8EncodeCodePoint (c : Nat) : List Nat :=
  if c < 128 then [c]
  else if c < 2048 then [192 + c / 64, 128 + c % 64]
  else if c < 65536 then [224 + c / 4096, 128 + (c / 64) % 64, 128 + c % 64]
  else [240 + c / 262144, 128 + (c / 4096) % 64, 128 + (c / 64) % 64, 128 + c % 64]

def utf8Bytes (s : String) : List Nat :=
  (s.toList.map (fun c => utf8EncodeCodePoint c.toNat)).flatten

def hexDigit (n : Nat) : Char :=
  if n < 10 then Char.ofNat (48 + n) else Char.ofNat (87 + n)

def bytesToHex (bs : List Nat) : String :=
  String.mk ((bs.map (fun b => [hexDigit (b / 16), hexDigit (b % 16)])).flatten)

/-- The source's generateKey: sha256 hex digest of the logical key. -/
def generateKey (input : String) : String := bytesToHex (sha256Bytes (utf8Bytes input))


/-! ## JS Map model (insertion-ordered association list) -/

def jsGet {β : Type} (k : String) : List (String × β) → Option β
  | [] => none
  | p :: rest => if p.1 = k then some p.2 else jsGet k rest

def jsSet {β : Type} (k : String) (v : β) : List (String × β) → List (String × β)
  | [] => [(k, v)]
  | p :: rest => if p.1 = k then (k, v) :: rest else p :: jsSet k v rest

def jsDelete {β : Type} (k : String) : List (String × β) → List (String × β)
  | [] => []
  | p :: rest => if p.1 = k then rest else p :: jsDelete k rest

def jsHas {β : Type} (k : String) (m : List (String × β)) : Bool :=
  (jsGet k m).isSome

/-! ## Literal-pattern model of new RegExp(pattern).test(key) -/

def charsPrefixOf : List Char → List Char → Bool
  | [], _ => true
  | _ :: _, [] => false
  | a :: as, b :: bs => a == b && charsPrefixOf as bs

def charsContain (pat : List Char) : List Char → Bool
  | [] => charsPrefixOf pat []
  | c :: rest => charsPrefixOf pat (c :: rest) || charsContain pat rest

/-- regex.test for a metacharacter-free pattern: substring containment. -/
def regexTest (pattern key : String) : Bool :=
  charsContain pattern.toList key.toList

/-! ## Data model (CacheEntry, CacheOptions, CacheManager fields, state) -/

structure CacheEntry (α : Type) where
  data : α
  timestamp : Int
  hash : String
  hits : Nat
deriving DecidableEq, Repr

structure CacheOptions where
  ttl : Option Int := none
  maxMemoryEntries : Option Int := none
  enableDiskCache : Option Bool := none
  diskCachePath : Option String := none
  enableFileWatching : Option Bool := none
deriving DecidableEq, Repr

/-- The immutable configuration fields the constructor computes. -/
structure CacheConfig where
  ttl : Int
  maxMemoryEntries : Int
  enableDiskCache : Bool
  enableFileWatching : Bool
  diskCachePath : String
deriving DecidableEq, Repr

/-- JS `x || d` for a numeric option: 0 (and absence) is falsy and takes the
default; every other value, negative ones included, is kept. -/
def jsNumOr (v : Option Int) (d : Int) : Int :=
  match v with
  | some x => if x = 0 then d else x
  | none => d

/-- JS `x || d` for a string option: "" (and absence) is falsy. -/
def jsStrOr (v : Option String) (d : String) : String :=
  match v with
  | some x => if x = "" then d else x
  | none => d

/-- The CacheManager constructor: computes the configuration fields exactly as
the source does (`options.ttl || 5 * 60 * 1000`, `options.maxMemoryEntries ||
1000`, `options.enableDiskCache !== false`, `options.enableFileWatching !==
false`, `options.diskCachePath || path.join(process.cwd(), ".storybook-mcp-cache")`;
the default disk path is kept relative to the working directory here). The
constructor body performs no validation and has no failure path. -/
def mkCacheManager (options : CacheOptions) : CacheConfig :=
  { ttl := jsNumOr options.ttl (5 * 60 * 1000)
    maxMemoryEntries := jsNumOr options.maxMemoryEntries 1000
    enableDiskCache := options.enableDiskCache ≠ some false
    enableFileWatching := options.enableFileWatching ≠ some false
    diskCachePath := jsStrOr options.diskCachePath ".storybook-mcp-cache" }

/-- Mutable state of a CacheManager: the memory tier map, the disk tier
(the set of `{key}.cache` files, as a map), the fileWatchers map
(filePath to the cacheKey captured by the registered callback), and the
statistics counters. -/
structure CacheState (α : Type) where
  memoryCache : List (String × CacheEntry α)
  disk : List (String × CacheEntry α)
  watchers : List (String × String)
  hits : Nat
  misses : Nat
  lastClear : Int
deriving DecidableEq, Repr

/-- State of a freshly constructed CacheManager (`lastClear: Date.now()`),
with an empty disk cache directory. -/
def initState (α : Type) (now : Int) : CacheState α :=
  { memoryCache := [], disk := [], watchers := [], hits := 0, misses := 0, lastClear := now }

/-! ## CacheManager operations -/

/-- isValid: `Date.now() - entry.timestamp < this.ttl`. -/
def isValid {α : Type} (cfg : CacheConfig) (now : Int) (e : CacheEntry α) : Bool :=
  now - e.timestamp < cfg.ttl

/-- One step of the evictLRU scan. The accumulator holds
(lruKey, lruHits, oldestTime); `none` models the initial
`lruKey = null, lruHits = Infinity, oldestTime = Infinity` state (the first
entry always replaces it, since anything is below Infinity). The update
condition is the source's
`entry.hits < lruHits || (entry.hits === lruHits && entry.timestamp < oldestTime)`. -/
def evictStep {α : Type} (acc : Option (String × Nat × Int)) (p : String × CacheEntry α) :
    Option (String × Nat × Int) :=
  match acc with
  | none => some (p.1, p.2.hits, p.2.timestamp)
  | some (k, lruHits, oldestTime) =>
      if p.2.hits < lruHits ∨ (p.2.hits = lruHits ∧ p.2.timestamp < oldestTime) then
        some (p.1, p.2.hits, p.2.timestamp)
      else
        some (k, lruHits, oldestTime)

/-- evictLRU: scan all memory entries for the lowest-hits (ties: oldest)
entry and delete it. The final `if (lruKey)` of the source is falsy both for
`null` (empty map) and for the empty-string key. -/
def evictLRU {α : Type} (m : List (String × CacheEntry α)) : List (String × CacheEntry α) :=
  match m.foldl evictStep none with
  | some (k, _, _) => if k = "" then m else jsDelete k m
  | none => m

/-- set: evict when `this.memoryCache.size >= this.maxMemoryEntries`, store in
the memory tier, and persist to the disk tier when enabled. -/
def set {α : Type} (cfg : CacheConfig) (key : String) (entry : CacheEntry α)
    (s : CacheState α) : CacheState α :=
  let mem :=
    if cfg.maxMemoryEntries ≤ (s.memoryCache.length : Int) then evictLRU s.memoryCache
    else s.memoryCache
  { s with
    memoryCache := jsSet key entry mem
    disk := if cfg.enableDiskCache then jsSet key entry s.disk else s.disk }

/-- `memoryEntry && this.isValid(memoryEntry)`: a tier lookup that treats an
expired entry as absent. -/
def tierLookup {α : Type} (cfg : CacheConfig) (now : Int) (ck : String)
    (m : List (String × CacheEntry α)) : Option (CacheEntry α) :=
  match jsGet ck m with
  | some e => if isValid cfg now e then some e else none
  | none => none

/-- The watch-registration step of the miss path:
`if (this.enableFileWatching && !this.fileWatchers.has(filePath)) this.watchFile(filePath, cacheKey)`.
watchFile stores the watcher under filePath; the registered callback captures
cacheKey. (A watch-setup failure is logged and swallowed in the source; the
success case is modelled.) -/
def missState {α : Type} (cfg : CacheConfig) (cacheKey : String) (filePath : Option String)
    (s : CacheState α) : CacheState α :=
  match filePath with
  | some fp =>
      if cfg.enableFileWatching && !(jsHas fp s.watchers) then
        { s with watchers := s.watchers ++ [(fp, cacheKey)] }
      else s
  | none => s

namespace CacheManager

/-- get(key, computeFn, filePath?): memory lookup, then disk lookup with
promotion, then compute-and-store. `f` is the outcome of `computeFn()`;
`fileHash` is the outcome of `computeFileHash(filePath)` (used only when a
filePath is supplied). On a hit the source mutates the entry object in place
(`entry.hits++`), so the memory tier holds the incremented entry; on a disk
hit the same (aliased) object is what was promoted, while the disk file is
not rewritten and keeps the old count. -/
def get {α ε : Type} (cfg : CacheConfig) (key : String) (f : Except ε α)
    (filePath : Option String) (fileHash : String) (now : Int)
    (s : CacheState α) : Except ε α × CacheState α :=
  match tierLookup cfg now (generateKey key) s.memoryCache with
  | some me =>
      (Except.ok me.data,
       { s with
         memoryCache := jsSet (generateKey key) { me with hits := me.hits + 1 } s.memoryCache
         hits := s.hits + 1 })
  | none =>
    match (if cfg.enableDiskCache then tierLookup cfg now (generateKey key) s.disk else none) with
    | some de =>
        (Except.ok de.data,
         { s with
           memoryCache := jsSet (generateKey key) { de with hits := de.hits + 1 } s.memoryCache
           hits := s.hits + 1 })
    | none =>
      match f with
      | Except.error err => (Except.error err, { s with misses := s.misses + 1 })
      | Except.ok v =>
          (Except.ok v,
           set cfg (generateKey key)
             { data := v, timestamp := now,
               hash := if filePath.isSome then fileHash else "", hits := 0 }
             (missState cfg (generateKey key) filePath { s with misses := s.misses + 1 }))

end CacheManager

open CacheManager

/-- invalidate(key): note that the source re-hashes its argument
(`const cacheKey = this.generateKey(key)`) before deleting from both tiers. -/
def invalidate {α : Type} (cfg : CacheConfig) (key : String) (s : CacheState α) : CacheState α :=
  let cacheKey := generateKey key
  { s with
    memoryCache := jsDelete cacheKey s.memoryCache
    disk := if cfg.enableDiskCache then jsDelete cacheKey s.disk else s.disk }

/-- The callback registered by watchFile(filePath, cacheKey): on a "change"
event it runs `this.invalidate(cacheKey)` (passing the already-hashed key). -/
def fileChangeCallback {α : Type} (cfg : CacheConfig) (cacheKey : String)
    (eventType : String) (s : CacheState α) : CacheState α :=
  if eventType = "change" then invalidate cfg cacheKey s else s

/-- invalidatePattern: collect the memory-tier keys the regex matches, then
call `this.invalidate` on each (which re-hashes them), counting one per
collected key. -/
def invalidatePattern {α : Type} (cfg : CacheConfig) (pattern : String)
    (s : CacheState α) : Nat × CacheState α :=
  let keysToDelete := (s.memoryCache.map Prod.fst).filter (fun k => regexTest pattern k)
  (keysToDelete.length, keysToDelete.foldl (fun st k => invalidate cfg k st) s)

/-- JS `Math.round` (round half toward positive infinity). -/
def jsRound (q : ℚ) : Int := ⌊q + 1 / 2⌋

/-- Stats snapshot. `memorySize` (the JSON.stringify byte length of the memory
tier, an approximation the source computes) is not modelled; no claim
mentions it. Numbers are modelled as exact rationals. -/
structure CacheStats where
  memoryEntries : Nat
  diskEntries : Nat
  totalHits : Nat
  totalMisses : Nat
  hitRate : ℚ
  lastClear : Int
deriving DecidableEq, Repr

/-- getStats: disk entries are the `.cache` files; `hitRate` is
`Math.round(hitRate * 10000) / 100` where the inner rate is
`hits / (hits + misses)` (0 when no calls yet). -/
def getStats {α : Type} (cfg : CacheConfig) (s : CacheState α) : CacheStats :=
  let total := s.hits + s.misses
  let rate : ℚ := if 0 < total then (s.hits : ℚ) / (total : ℚ) else 0
  { memoryEntries := s.memoryCache.length
    diskEntries := if cfg.enableDiskCache then s.disk.length else 0
    totalHits := s.hits
    totalMisses := s.misses
    hitRate := (jsRound (rate * 10000) : ℚ) / 100
    lastClear := s.lastClear }

/-! ## Module-level getCache / resetCache -/

/-- getCache: `if (!globalCache) globalCache = new CacheManager(options); return
globalCache`. The global is modelled as an `Option CacheConfig` threaded
explicitly; the returned configuration stands for the instance. -/
def getCache (options : Option CacheOptions) (globalCache : Option CacheConfig) :
    CacheConfig × Option CacheConfig :=
  match globalCache with
  | some c => (c, some c)
  | none =>
      let c := mkCacheManager (options.getD {})
      (c, some c)

/-- resetCache: closes the instance and nulls the global. -/
def resetCache (_globalCache : Option CacheConfig) : Option CacheConfig := none

/-! ## Driver for sequences of get calls -/

/-- One get call of a sequence: its logical key, the outcome its computeFn
would produce, the optional watched source file and that file's content hash,
and the time at which the call happens. -/
structure GetOp (α ε : Type) where
  key : String
  result : Except ε α
  filePath : Option String := none
  fileHash : String := ""
  now : Int

def runGet {α ε : Type} (cfg : CacheConfig) (op : GetOp α ε) (s : CacheState α) : CacheState α :=
  (get cfg op.key op.result op.filePath op.fileHash op.now s).2

def runGets {α ε : Type} (cfg : CacheConfig) (ops : List (GetOp α ε)) (s : CacheState α) :
    CacheState α :=
  ops.foldl (fun st op => runGet cfg op st) s

/-- A sequence of bare memory/disk stores (the put path of `set`). -/
def runPuts {α : Type} (cfg : CacheConfig) (ops : List (String × CacheEntry α))
    (s : CacheState α) : CacheState α :=
  ops.foldl (fun st op => set cfg op.1 op.2 st) s

/-! ## Concrete fixtures used by the claim theorems -/

deriving instance DecidableEq for Except

set_option maxRecDepth 200000

/-- A CacheManager built with default options. -/
def cfgD : CacheConfig := mkCacheManager {}

/-- A CacheManager built with a memory capacity of one entry. -/
def cfgOne : CacheConfig := mkCacheManager { maxMemoryEntries := some 1 }

/-- State after caching logical key "k" (value 42) with source file "f.tsx". -/
def sWatch : CacheState Nat :=
  runGets cfgD
    ([{ key := "k", result := Except.ok 42, filePath := some "f.tsx", fileHash := "h", now := 0 }] :
      List (GetOp Nat String))
    (initState Nat 0)

/-- sWatch after the file watcher for "f.tsx" has delivered a "change" event
and its callback has run (the callback was registered with the derived cache
key, as in the source). -/
def sWatchAfter : CacheState Nat := fileChangeCallback cfgD (generateKey "k") "change" sWatch

/-- State after populating entries for the three pattern-invalidation
scenario keys. -/
def sPat : CacheState Nat :=
  runGets cfgD
    ([{ key := "component:Button.tsx", result := Except.ok 1, now := 0 },
      { key := "story:Button.stories.tsx", result := Except.ok 2, now := 0 },
      { key := "util:helpers.ts", result := Except.ok 3, now := 0 }] :
      List (GetOp Nat String))
    (initState Nat 0)

/-- Capacity-one cache: miss on "a", miss on "b" (evicts "a" from memory; "a"
stays on disk), then a disk hit on "a" that is promoted into memory. -/
def sPromo : CacheState Nat :=
  runGets cfgOne
    ([{ key := "a", result := Except.ok 1, now := 0 },
      { key := "b", result := Except.ok 2, now := 0 },
      { key := "a", result := Except.ok 3, now := 0 }] :
      List (GetOp Nat String))
    (initState Nat 0)

/-- Two get calls for the same key: one miss then one hit. -/
def sRate : CacheState Nat :=
  runGets cfgD
    ([{ key := "a", result := Except.ok 1, now := 0 },
      { key := "a", result := Except.ok 2, now := 0 }] :
      List (GetOp Nat String))
    (initState Nat 0)

/-! ## Claim theorems -/

/-- C1 (code bug): file-change invalidation does not remove the entry. After
caching "k" with source file "f.tsx", the registered callback runs
`invalidate(cacheKey)` with the already-hashed key; `invalidate` hashes its
argument again, so it deletes `generateKey (generateKey "k")` and the real
entry survives in both tiers. The next get for "k" then returns the stale 42
instead of the fresh computation result 99. -/
theorem watch_invalidation_misses_entry :
    sWatch.watchers = [("f.tsx", generateKey "k")]
    ∧ jsGet (generateKey "k") sWatchAfter.memoryCache ≠ none
    ∧ jsGet (generateKey "k") sWatchAfter.disk ≠ none
    ∧ (get cfgD "k" (Except.ok 99 : Except String Nat) (some "f.tsx") "h2" 5 sWatchAfter).1 =
        Except.ok 42 := by
  refine ⟨by decide, by decide, by decide, by decide⟩

/-- C2 (code bug): the pattern-invalidation scenario fails. The memory tier
keys are sha256 hex digests, so the pattern "Button" matches none of them:
`invalidatePattern` returns 0 and leaves the state unchanged, and both
Button entries remain resident (the claim expects both removed). -/
theorem invalidate_pattern_scenario_fails :
    invalidatePattern cfgD "Button" sPat = (0, sPat)
    ∧ jsGet (generateKey "component:Button.tsx") sPat.memoryCache ≠ none
    ∧ jsGet (generateKey "story:Button.stories.tsx") sPat.memoryCache ≠ none := by
  refine ⟨by decide, by decide, by decide⟩

/-- C3 (counterexample): a promotion can push the memory tier above
maxMemoryEntries. With capacity 1, after a miss on "a", a miss on "b" (which
evicts "a" from memory only), a get for "a" hits the disk tier and is written
into the memory map directly, without the capacity check: the memory tier
then holds 2 entries. -/
theorem promotion_exceeds_capacity :
    cfgOne.maxMemoryEntries = 1 ∧ sPromo.memoryCache.length = 2 := by
  refine ⟨by decide, by decide⟩

/-- C4 (counterexample): hitRate is not totalHits / N. After one miss and one
hit (N = 2, totalHits = 1), getStats reports hitRate = 50 — the hit ratio as
a rounded percentage — whereas the claim requires totalHits / N = 1 / 2. -/
theorem hit_rate_is_percentage :
    (getStats cfgD sRate).totalHits = 1
    ∧ (getStats cfgD sRate).totalMisses = 1
    ∧ (getStats cfgD sRate).hitRate = 50
    ∧ ((getStats cfgD sRate).hitRate : ℚ) ≠ 1 / 2 := by
  have h1 : sRate.hits = 1 := by decide
  have h2 : sRate.misses = 1 := by decide
  simp only [getStats, h1, h2, jsRound]
  norm_num

/-- C8 (counterexample): construction with a negative ttl does not fail. The
constructor has no validation and no failure path; `options.ttl || default`
keeps every non-zero value, so ttl = -5 is silently stored, and under that
configuration even a brand-new entry is already invalid. -/
theorem negative_ttl_accepted :
    (mkCacheManager { ttl := some (-5) }).ttl = -5
    ∧ isValid (mkCacheManager { ttl := some (-5) }) 0
        ({ data := 0, timestamp := 0, hash := "", hits := 0 } : CacheEntry Nat) = false := by
  refine ⟨by decide, by decide⟩

/-- C8 (amended): the constructor performs no validation: every non-zero ttl
value, negative ones included, is accepted and stored as given (only falsy
values are replaced by the default), and construction always succeeds. -/
theorem constructor_no_validation (t : Int) (h : t ≠ 0) :
    (mkCacheManager { ttl := some t }).ttl = t := by
  simp [mkCacheManager, jsNumOr, h]

/-- Witness for constructor_no_validation at t = -5. -/
theorem constructor_no_validation_witness :
    (mkCacheManager { ttl := some (-5) }).ttl = -5 :=
  constructor_no_validation (-5) (by decide)

/-- C9: getCache constructs the global instance only on the first call; every
later call returns that same instance and ignores its own options, until
resetCache clears the global and the next call constructs from its options. -/
theorem get_cache_singleton (o₁ o₂ : Option CacheOptions) :
    (getCache o₁ none).1 = mkCacheManager (o₁.getD {})
    ∧ (getCache o₂ (getCache o₁ none).2).1 = (getCache o₁ none).1
    ∧ (getCache o₂ (getCache o₁ none).2).2 = (getCache o₁ none).2
    ∧ (getCache o₂ (resetCache (getCache o₁ none).2)).1 = mkCacheManager (o₂.getD {}) := by
  refine ⟨rfl, rfl, rfl, rfl⟩

/-- C10: falsy configuration values take the defaults: ttl 0 becomes the
5-minute default (300000 ms) and maxMemoryEntries 0 becomes 1000. -/
theorem constructor_falsy_defaults :
    (mkCacheManager { ttl := some 0, maxMemoryEntries := some 0 }).ttl = 5 * 60 * 1000
    ∧ (mkCacheManager { ttl := some 0, maxMemoryEntries := some 0 }).maxMemoryEntries = 1000 := by
  refine ⟨by decide, by decide⟩

/-! ## Helper lemmas about the JS map model -/

theorem jsGet_of_mem_nodup {β : Type} {k : String} {e : β} :
    ∀ {m : List (String × β)}, (k, e) ∈ m → (m.map Prod.fst).Nodup → jsGet k m = some e := by
  intro m
  induction m with
  | nil => intro h; exact absurd h (List.not_mem_nil _)
  | cons p rest ih =>
      intro hm hnd
      rw [List.map_cons, List.nodup_cons] at hnd
      rcases List.mem_cons.mp hm with heq | htail
      · simp [jsGet, ← heq]
      · have hk : ¬ p.1 = k := by
          intro hkk
          apply hnd.1
          rw [hkk]
          exact List.mem_map_of_mem Prod.fst htail
        simp [jsGet, hk, ih htail hnd.2]

theorem lex_trans {h h₁ h₂ : Nat} {t t₁ t₂ : Int}
    (a : h < h₁ ∨ (h = h₁ ∧ t ≤ t₁)) (b : h₁ < h₂ ∨ (h₁ = h₂ ∧ t₁ ≤ t₂)) :
    h < h₂ ∨ (h = h₂ ∧ t ≤ t₂) := by omega

/-- Invariant of the evictLRU scan: starting from a candidate (k₀, h₀, t₀),
the fold returns a candidate taken from the list or the start,
lexicographically (hits, then timestamp) at most the start and at most every
scanned entry. -/
theorem evict_fold_spec {α : Type} (m : List (String × CacheEntry α)) :
    ∀ (k₀ : String) (h₀ : Nat) (t₀ : Int),
      ∃ k h t, m.foldl evictStep (some (k₀, h₀, t₀)) = some (k, h, t)
        ∧ ((k = k₀ ∧ h = h₀ ∧ t = t₀) ∨ ∃ e, (k, e) ∈ m ∧ e.hits = h ∧ e.timestamp = t)
        ∧ (h < h₀ ∨ (h = h₀ ∧ t ≤ t₀))
        ∧ ∀ p ∈ m, h < p.2.hits ∨ (h = p.2.hits ∧ t ≤ p.2.timestamp) := by
  induction m with
  | nil =>
      intro k₀ h₀ t₀
      exact ⟨k₀, h₀, t₀, rfl, Or.inl ⟨rfl, rfl, rfl⟩, Or.inr ⟨rfl, le_refl _⟩, by simp⟩
  | cons q m ih =>
      intro k₀ h₀ t₀
      by_cases hc : q.2.hits < h₀ ∨ (q.2.hits = h₀ ∧ q.2.timestamp < t₀)
      · -- the head entry replaces the candidate
        obtain ⟨k, h, t, heq, horig, hle, hmin⟩ := ih q.1 q.2.hits q.2.timestamp
        refine ⟨k, h, t, ?_, ?_, ?_, ?_⟩
        · simpa [List.foldl_cons, evictStep, hc] using heq
        · rcases horig with ⟨hk, hh, ht⟩ | ⟨e, he, hh, ht⟩
          · subst hk
            exact Or.inr ⟨q.2, by simp, hh.symm, ht.symm⟩
          · exact Or.inr ⟨e, List.mem_cons_of_mem _ he, hh, ht⟩
        · have hc₁ : q.2.hits < h₀ ∨ (q.2.hits = h₀ ∧ q.2.timestamp ≤ t₀) := by
            clear heq horig hmin ih
            omega
          exact lex_trans hle hc₁
        · intro p hp
          rcases List.mem_cons.mp hp with rfl | hp₂
          · exact hle
          · exact hmin p hp₂
      · -- the candidate survives the head entry
        obtain ⟨k, h, t, heq, horig, hle, hmin⟩ := ih k₀ h₀ t₀
        refine ⟨k, h, t, ?_, ?_, hle, ?_⟩
        · simpa [List.foldl_cons, evictStep, hc] using heq
        · rcases horig with hstart | ⟨e, he, hh, ht⟩
          · exact Or.inl hstart
          · exact Or.inr ⟨e, List.mem_cons_of_mem _ he, hh, ht⟩
        · intro p hp
          rcases List.mem_cons.mp hp with rfl | hp₂
          · have hc₁ : h₀ < p.2.hits ∨ (h₀ = p.2.hits ∧ t₀ ≤ p.2.timestamp) := by
              clear heq horig hmin ih
              omega
            exact lex_trans hle hc₁
          · exact hmin p hp₂

/-- The evictLRU scan over a nonempty memory tier selects a resident entry
with lexicographically minimal (hits, timestamp). -/
theorem evictLRU_choice {α : Type} (q : String × CacheEntry α) (m : List (String × CacheEntry α)) :
    ∃ k e, (k, e) ∈ q :: m
      ∧ (q :: m).foldl evictStep none = some (k, e.hits, e.timestamp)
      ∧ ∀ p ∈ q :: m, e.hits < p.2.hits ∨ (e.hits = p.2.hits ∧ e.timestamp ≤ p.2.timestamp) := by
  obtain ⟨k, h, t, heq, horig, hle, hmin⟩ := evict_fold_spec m q.1 q.2.hits q.2.timestamp
  have hfold : (q :: m).foldl evictStep none = some (k, h, t) := by
    simpa [List.foldl_cons, evictStep] using heq
  rcases horig with ⟨hk, hh, ht⟩ | ⟨e, he, hh, ht⟩
  · subst hk
    refine ⟨q.1, q.2, by simp, by rw [hfold, hh, ht], ?_⟩
    intro p hp
    rcases List.mem_cons.mp hp with rfl | hp₂
    · exact Or.inr ⟨rfl, le_refl _⟩
    · have := hmin p hp₂
      omega
  · refine ⟨k, e, List.mem_cons_of_mem _ he, by rw [hfold, hh, ht], ?_⟩
    intro p hp
    rcases List.mem_cons.mp hp with rfl | hp₂
    · have := hle
      omega
    · have := hmin p hp₂
      omega

/-- C5: whenever `set` stores into a memory tier at capacity, the entry it
evicts is one with the lowest hit count among resident entries, ties broken
by the oldest timestamp; in particular no entry is evicted while another
entry with a strictly lower hit count remains. Hypotheses: the tier is at
capacity and nonempty, and keys are nonempty strings and distinct (as the
sha256 hex keys the manager stores always are). -/
theorem eviction_correct {α : Type} (cfg : CacheConfig) (s : CacheState α)
    (key : String) (entry : CacheEntry α)
    (hcap : cfg.maxMemoryEntries ≤ (s.memoryCache.length : Int))
    (hne : s.memoryCache ≠ [])
    (hkeys : ∀ p ∈ s.memoryCache, p.1 ≠ "")
    (hnd : (s.memoryCache.map Prod.fst).Nodup) :
    ∃ kmin emin, jsGet kmin s.memoryCache = some emin
      ∧ (set cfg key entry s).memoryCache = jsSet key entry (jsDelete kmin s.memoryCache)
      ∧ ∀ p ∈ s.memoryCache,
          emin.hits ≤ p.2.hits ∧ (emin.hits = p.2.hits → emin.timestamp ≤ p.2.timestamp) := by
  obtain ⟨q, m, hqm⟩ : ∃ q m, s.memoryCache = q :: m := by
    cases hmc : s.memoryCache with
    | nil => exact absurd hmc hne
    | cons q m => exact ⟨q, m, rfl⟩
  obtain ⟨k, e, hmem, hfold, hmin⟩ := evictLRU_choice q m
  have hk : k ≠ "" := hkeys (k, e) (hqm ▸ hmem)
  refine ⟨k, e, jsGet_of_mem_nodup (hqm ▸ hmem) hnd, ?_, ?_⟩
  · have hev : evictLRU s.memoryCache = jsDelete k s.memoryCache := by
      rw [hqm, evictLRU, hfold]
      simp [hk]
    show jsSet key entry
        (if cfg.maxMemoryEntries ≤ (s.memoryCache.length : Int) then evictLRU s.memoryCache
         else s.memoryCache) = _
    rw [if_pos hcap, hev]
  · intro p hp
    have := hmin p (hqm ▸ hp)
    omega

/-- Witness for eviction_correct: a capacity-2 tier holding entries with hit
counts 5 and 1; the store evicts the 1-hit entry. -/
theorem eviction_correct_witness :
    ∃ kmin emin,
      jsGet kmin
          ([("k1", { data := 10, timestamp := 0, hash := "", hits := 5 }),
            ("k2", { data := 20, timestamp := 3, hash := "", hits := 1 })] :
            List (String × CacheEntry Nat)) = some emin
      ∧ (set (mkCacheManager { maxMemoryEntries := some 2 }) "k3"
            { data := 30, timestamp := 9, hash := "", hits := 0 }
            { memoryCache :=
                [("k1", { data := 10, timestamp := 0, hash := "", hits := 5 }),
                 ("k2", { data := 20, timestamp := 3, hash := "", hits := 1 })],
              disk := [], watchers := [], hits := 0, misses := 0, lastClear := 0 }).memoryCache =
          jsSet "k3" { data := 30, timestamp := 9, hash := "", hits := 0 }
            (jsDelete kmin
              [("k1", { data := 10, timestamp := 0, hash := "", hits := 5 }),
               ("k2", { data := 20, timestamp := 3, hash := "", hits := 1 })])
      ∧ ∀ p ∈ ([("k1", { data := 10, timestamp := 0, hash := "", hits := 5 }),
                ("k2", { data := 20, timestamp := 3, hash := "", hits := 1 })] :
                List (String × CacheEntry Nat)),
          emin.hits ≤ p.2.hits ∧ (emin.hits = p.2.hits → emin.timestamp ≤ p.2.timestamp) :=
  eviction_correct (mkCacheManager { maxMemoryEntries := some 2 })
    { memoryCache :=
        [("k1", { data := 10, timestamp := 0, hash := "", hits := 5 }),
         ("k2", { data := 20, timestamp := 3, hash := "", hits := 1 })],
      disk := [], watchers := [], hits := 0, misses := 0, lastClear := 0 }
    "k3" { data := 30, timestamp := 9, hash := "", hits := 0 }
    (by decide) (by decide) (by decide) (by decide)

theorem length_jsSet_le {β : Type} (k : String) (v : β) :
    ∀ m : List (String × β), (jsSet k v m).length ≤ m.length + 1 := by
  intro m
  induction m with
  | nil => simp [jsSet]
  | cons p rest ih =>
      by_cases hp : p.1 = k
      · simp [jsSet, hp]
      · simpa [jsSet, hp] using Nat.succ_le_succ ih

theorem mem_jsSet {β : Type} {k : String} {v : β} {p : String × β} :
    ∀ {m : List (String × β)}, p ∈ jsSet k v m → p = (k, v) ∨ p ∈ m := by
  intro m
  induction m with
  | nil => intro h; simpa [jsSet] using h
  | cons q rest ih =>
      intro h
      by_cases hq : q.1 = k
      · rcases List.mem_cons.mp (by simpa [jsSet, hq] using h) with h₁ | h₂
        · exact Or.inl h₁
        · exact Or.inr (List.mem_cons_of_mem _ h₂)
      · rcases List.mem_cons.mp (by simpa [jsSet, hq] using h) with h₁ | h₂
        · exact Or.inr (h₁ ▸ List.mem_cons_self _ _)
        · rcases ih h₂ with h₃ | h₄
          · exact Or.inl h₃
          · exact Or.inr (List.mem_cons_of_mem _ h₄)

theorem mem_jsDelete {β : Type} {k : String} {p : String × β} :
    ∀ {m : List (String × β)}, p ∈ jsDelete k m → p ∈ m := by
  intro m
  induction m with
  | nil => intro h; simpa [jsDelete] using h
  | cons q rest ih =>
      intro h
      by_cases hq : q.1 = k
      · exact List.mem_cons_of_mem _ (by simpa [jsDelete, hq] using h)
      · rcases List.mem_cons.mp (by simpa [jsDelete, hq] using h) with h₁ | h₂
        · exact h₁ ▸ List.mem_cons_self _ _
        · exact List.mem_cons_of_mem _ (ih h₂)

theorem length_jsDelete_of_mem {β : Type} {k : String} :
    ∀ {m : List (String × β)}, k ∈ m.map Prod.fst → (jsDelete k m).length + 1 = m.length := by
  intro m
  induction m with
  | nil => intro h; simp at h
  | cons q rest ih =>
      intro h
      by_cases hq : q.1 = k
      · simp [jsDelete, hq]
      · have hk : k ∈ rest.map Prod.fst := by
          rcases List.mem_map.mp h with ⟨p, hp, hfst⟩
          rcases List.mem_cons.mp hp with rfl | hp₂
          · exact absurd hfst hq
          · exact hfst ▸ List.mem_map_of_mem Prod.fst hp₂
        simpa [jsDelete, hq] using ih hk

/-- A nonempty memory tier whose keys are all nonempty shrinks by exactly one
entry under evictLRU. -/
theorem length_evictLRU {α : Type} (q : String × CacheEntry α) (m : List (String × CacheEntry α))
    (hkeys : ∀ p ∈ q :: m, p.1 ≠ "") :
    (evictLRU (q :: m)).length + 1 = (q :: m).length
    ∧ ∀ p ∈ evictLRU (q :: m), p ∈ q :: m := by
  obtain ⟨k, e, hmem, hfold, _⟩ := evictLRU_choice q m
  have hk : k ≠ "" := hkeys (k, e) hmem
  have hev : evictLRU (q :: m) = jsDelete k (q :: m) := by
    rw [evictLRU, hfold]
    simp [hk]
  have hkmap : k ∈ (q :: m).map Prod.fst := List.mem_map_of_mem Prod.fst hmem
  exact ⟨hev ▸ length_jsDelete_of_mem hkmap, fun p hp => mem_jsDelete (hev ▸ hp)⟩

/-- `set` preserves the capacity bound together with key nonemptiness. -/
theorem set_preserves_inv {α : Type} (cfg : CacheConfig) (k : String) (e : CacheEntry α)
    (s : CacheState α) (hmax : 1 ≤ cfg.maxMemoryEntries) (hk : k ≠ "")
    (hlen : (s.memoryCache.length : Int) ≤ cfg.maxMemoryEntries)
    (hkeys : ∀ p ∈ s.memoryCache, p.1 ≠ "") :
    (((set cfg k e s).memoryCache.length : Int) ≤ cfg.maxMemoryEntries)
    ∧ ∀ p ∈ (set cfg k e s).memoryCache, p.1 ≠ "" := by
  have hmc : (set cfg k e s).memoryCache =
      jsSet k e (if cfg.maxMemoryEntries ≤ (s.memoryCache.length : Int)
                 then evictLRU s.memoryCache else s.memoryCache) := rfl
  by_cases hcap : cfg.maxMemoryEntries ≤ (s.memoryCache.length : Int)
  · obtain ⟨q, m, hqm⟩ : ∃ q m, s.memoryCache = q :: m := by
      cases hmc₂ : s.memoryCache with
      | nil =>
          rw [hmc₂] at hcap
          simp at hcap
          omega
      | cons q m => exact ⟨q, m, rfl⟩
    obtain ⟨hlen₂, hsub⟩ := length_evictLRU q m (hqm ▸ hkeys)
    constructor
    · have h₁ := length_jsSet_le k e (evictLRU (q :: m))
      rw [hmc, if_pos hcap, hqm]
      have h₂ : (q :: m).length = s.memoryCache.length := by rw [hqm]
      omega
    · intro p hp
      rw [hmc, if_pos hcap, hqm] at hp
      rcases mem_jsSet hp with rfl | hp₂
      · exact hk
      · exact hkeys p (hqm ▸ hsub p hp₂)
  · constructor
    · have h₁ := length_jsSet_le k e s.memoryCache
      rw [hmc, if_neg hcap]
      omega
    · intro p hp
      rw [hmc, if_neg hcap] at hp
      rcases mem_jsSet hp with rfl | hp₂
      · exact hk
      · exact hkeys p hp₂

/-- C3 (amended): after every sequence of puts (the `set` path used on a
miss) against a cache whose capacity is at least one and whose stored keys
are nonempty, the memory tier never exceeds maxMemoryEntries. (Promotions of
disk hits bypass this check: see the counterexample theorem.) -/
theorem capacity_after_puts {α : Type} (cfg : CacheConfig) (ops : List (String × CacheEntry α)) :
    ∀ s : CacheState α, 1 ≤ cfg.maxMemoryEntries →
      (∀ op ∈ ops, op.1 ≠ "") →
      (s.memoryCache.length : Int) ≤ cfg.maxMemoryEntries →
      (∀ p ∈ s.memoryCache, p.1 ≠ "") →
      ((runPuts cfg ops s).memoryCache.length : Int) ≤ cfg.maxMemoryEntries := by
  induction ops with
  | nil => intro s _ _ hlen _; exact hlen
  | cons op ops ih =>
      intro s hmax hops hlen hkeys
      have hop : op.1 ≠ "" := hops op (List.mem_cons_self _ _)
      obtain ⟨hlen₂, hkeys₂⟩ := set_preserves_inv cfg op.1 op.2 s hmax hop hlen hkeys
      have hops₂ : ∀ p ∈ ops, p.1 ≠ "" := fun p hp => hops p (List.mem_cons_of_mem _ hp)
      simpa [runPuts, List.foldl_cons] using
        ih (set cfg op.1 op.2 s) hmax hops₂ hlen₂ hkeys₂

/-- Witness for capacity_after_puts: three puts into a capacity-2 cache leave
at most 2 memory entries. -/
theorem capacity_after_puts_witness :
    ((runPuts (mkCacheManager { maxMemoryEntries := some 2 })
        ([("a", { data := 1, timestamp := 0, hash := "", hits := 0 }),
          ("b", { data := 2, timestamp := 1, hash := "", hits := 0 }),
          ("c", { data := 3, timestamp := 2, hash := "", hits := 0 })] :
          List (String × CacheEntry Nat))
        (initState Nat 0)).memoryCache.length : Int) ≤
      (mkCacheManager { maxMemoryEntries := some 2 }).maxMemoryEntries :=
  capacity_after_puts (mkCacheManager { maxMemoryEntries := some 2 })
    ([("a", { data := 1, timestamp := 0, hash := "", hits := 0 }),
      ("b", { data := 2, timestamp := 1, hash := "", hits := 0 }),
      ("c", { data := 3, timestamp := 2, hash := "", hits := 0 })] :
      List (String × CacheEntry Nat))
    (initState Nat 0) (by decide) (by decide) (by decide) (by decide)

/-! ## Lemmas about tier lookups and the get paths -/

theorem isValid_true_iff {α : Type} (cfg : CacheConfig) (now : Int) (e : CacheEntry α) :
    isValid cfg now e = true ↔ now - e.timestamp < cfg.ttl := by
  simp [isValid]

theorem tierLookup_some_iff {α : Type} {cfg : CacheConfig} {now : Int} {ck : String}
    {m : List (String × CacheEntry α)} {e : CacheEntry α} :
    tierLookup cfg now ck m = some e ↔ jsGet ck m = some e ∧ isValid cfg now e = true := by
  unfold tierLookup
  cases h : jsGet ck m with
  | none => simp
  | some e₁ =>
      dsimp only
      by_cases hv : isValid cfg now e₁ = true
      · rw [if_pos hv]
        constructor
        · intro h₂
          have h₃ : e₁ = e := by injection h₂
          exact ⟨h₂, h₃ ▸ hv⟩
        · intro h₂
          exact h₂.1
      · rw [if_neg hv]
        constructor
        · intro h₂
          simp at h₂
        · rintro ⟨h₂, hvt⟩
          have h₃ : e₁ = e := by injection h₂
          rw [← h₃] at hvt
          exact absurd hvt hv

theorem tierLookup_none_of {α : Type} {cfg : CacheConfig} {now : Int} {ck : String}
    {m : List (String × CacheEntry α)}
    (h : ∀ e, jsGet ck m = some e → isValid cfg now e = false) :
    tierLookup cfg now ck m = none := by
  unfold tierLookup
  cases hg : jsGet ck m with
  | none => rfl
  | some e => simp [h e hg]

theorem jsGet_jsSet_self {β : Type} (k : String) (v : β) :
    ∀ m : List (String × β), jsGet k (jsSet k v m) = some v := by
  intro m
  induction m with
  | nil => simp [jsGet, jsSet]
  | cons p rest ih =>
      by_cases hp : p.1 = k
      · simp [jsGet, jsSet, hp]
      · simp [jsGet, jsSet, hp, ih]

theorem missState_hits {α : Type} (cfg : CacheConfig) (ck : String) (fp : Option String)
    (s : CacheState α) : (missState cfg ck fp s).hits = s.hits := by
  cases fp with
  | none => rfl
  | some p =>
      by_cases hw : (cfg.enableFileWatching && !(jsHas p s.watchers)) = true <;>
        simp [missState, hw]

theorem missState_misses {α : Type} (cfg : CacheConfig) (ck : String) (fp : Option String)
    (s : CacheState α) : (missState cfg ck fp s).misses = s.misses := by
  cases fp with
  | none => rfl
  | some p =>
      by_cases hw : (cfg.enableFileWatching && !(jsHas p s.watchers)) = true <;>
        simp [missState, hw]

theorem missState_memoryCache {α : Type} (cfg : CacheConfig) (ck : String) (fp : Option String)
    (s : CacheState α) : (missState cfg ck fp s).memoryCache = s.memoryCache := by
  cases fp with
  | none => rfl
  | some p =>
      by_cases hw : (cfg.enableFileWatching && !(jsHas p s.watchers)) = true <;>
        simp [missState, hw]

theorem missState_disk {α : Type} (cfg : CacheConfig) (ck : String) (fp : Option String)
    (s : CacheState α) : (missState cfg ck fp s).disk = s.disk := by
  cases fp with
  | none => rfl
  | some p =>
      by_cases hw : (cfg.enableFileWatching && !(jsHas p s.watchers)) = true <;>
        simp [missState, hw]

theorem set_hits {α : Type} (cfg : CacheConfig) (k : String) (e : CacheEntry α)
    (s : CacheState α) : (set cfg k e s).hits = s.hits := rfl

theorem set_misses {α : Type} (cfg : CacheConfig) (k : String) (e : CacheEntry α)
    (s : CacheState α) : (set cfg k e s).misses = s.misses := rfl

/-- Every get path records exactly one hit or one miss. -/
theorem get_counters {α ε : Type} (cfg : CacheConfig) (key : String) (f : Except ε α)
    (fp : Option String) (fh : String) (now : Int) (s : CacheState α) :
    (get cfg key f fp fh now s).2.hits + (get cfg key f fp fh now s).2.misses
      = s.hits + s.misses + 1 := by
  unfold CacheManager.get
  cases h₁ : tierLookup cfg now (generateKey key) s.memoryCache with
  | some me =>
      show s.hits + 1 + s.misses = s.hits + s.misses + 1
      omega
  | none =>
      cases h₂ : (if cfg.enableDiskCache then tierLookup cfg now (generateKey key) s.disk
                  else none) with
      | some de =>
          show s.hits + 1 + s.misses = s.hits + s.misses + 1
          omega
      | none =>
          cases f with
          | error err =>
              show s.hits + (s.misses + 1) = s.hits + s.misses + 1
              omega
          | ok v =>
              dsimp only
              rw [set_hits, set_misses, missState_hits, missState_misses]
              show s.hits + (s.misses + 1) = s.hits + s.misses + 1
              omega

theorem runGets_counters {α ε : Type} (cfg : CacheConfig) (ops : List (GetOp α ε)) :
    ∀ s : CacheState α,
      (runGets cfg ops s).hits + (runGets cfg ops s).misses = s.hits + s.misses + ops.length := by
  induction ops with
  | nil => intro s; simp [runGets]
  | cons op ops ih =>
      intro s
      have hstep := get_counters cfg op.key op.result op.filePath op.fileHash op.now s
      have htail := ih (runGet cfg op s)
      simp only [runGets, List.foldl_cons, runGet, List.length_cons] at htail hstep ⊢
      omega

/-- The hitRate field as a function of the counters. -/
theorem getStats_hitRate_formula {α : Type} (cfg : CacheConfig) (s : CacheState α) (N : Nat)
    (h : s.hits + s.misses = N) :
    (getStats cfg s).hitRate =
      if N = 0 then 0
      else (jsRound (((getStats cfg s).totalHits : ℚ) / (N : ℚ) * 10000) : ℚ) / 100 := by
  subst h
  by_cases h0 : s.hits + s.misses = 0
  · have hh : s.hits = 0 := by omega
    have hm : s.misses = 0 := by omega
    simp only [getStats, hh, hm, jsRound]
    norm_num
  · have hpos : 0 < s.hits + s.misses := Nat.pos_of_ne_zero h0
    simp only [getStats, h0, if_neg, hpos, if_pos, if_true]
    rfl

theorem isValid_false_iff {α : Type} (cfg : CacheConfig) (now : Int) (e : CacheEntry α) :
    isValid cfg now e = false ↔ ¬ now - e.timestamp < cfg.ttl := by
  simp [isValid]

theorem set_memoryCache {α : Type} (cfg : CacheConfig) (k : String) (e : CacheEntry α)
    (s : CacheState α) :
    (set cfg k e s).memoryCache =
      jsSet k e (if cfg.maxMemoryEntries ≤ (s.memoryCache.length : Int)
                 then evictLRU s.memoryCache else s.memoryCache) := rfl

theorem set_disk {α : Type} (cfg : CacheConfig) (k : String) (e : CacheEntry α)
    (s : CacheState α) :
    (set cfg k e s).disk = if cfg.enableDiskCache then jsSet k e s.disk else s.disk := rfl

/-- A valid memory entry produces a memory hit. -/
theorem get_memory_hit {α ε : Type} (cfg : CacheConfig) (key : String) (f : Except ε α)
    (fp : Option String) (fh : String) (now : Int) (s : CacheState α) (e : CacheEntry α)
    (h : tierLookup cfg now (generateKey key) s.memoryCache = some e) :
    get cfg key f fp fh now s =
      (Except.ok e.data,
       { s with
         memoryCache := jsSet (generateKey key) { e with hits := e.hits + 1 } s.memoryCache
         hits := s.hits + 1 }) := by
  unfold CacheManager.get
  rw [h]

/-- A memory miss followed by a valid disk entry produces a promoted disk hit. -/
theorem get_disk_hit {α ε : Type} (cfg : CacheConfig) (key : String) (f : Except ε α)
    (fp : Option String) (fh : String) (now : Int) (s : CacheState α) (e : CacheEntry α)
    (hm : tierLookup cfg now (generateKey key) s.memoryCache = none)
    (hd : (if cfg.enableDiskCache then tierLookup cfg now (generateKey key) s.disk else none) =
      some e) :
    get cfg key f fp fh now s =
      (Except.ok e.data,
       { s with
         memoryCache := jsSet (generateKey key) { e with hits := e.hits + 1 } s.memoryCache
         hits := s.hits + 1 }) := by
  unfold CacheManager.get
  rw [hm, hd]

/-- On a full miss with a failing computeFn, get only records the miss. -/
theorem get_full_miss_error {α ε : Type} (cfg : CacheConfig) (key : String) (err : ε)
    (fp : Option String) (fh : String) (now : Int) (s : CacheState α)
    (hm : tierLookup cfg now (generateKey key) s.memoryCache = none)
    (hd : (if cfg.enableDiskCache then tierLookup cfg now (generateKey key) s.disk else none) =
      none) :
    get cfg key (Except.error err : Except ε α) fp fh now s =
      (Except.error err, { s with misses := s.misses + 1 }) := by
  unfold CacheManager.get
  rw [hm, hd]

/-- On a full miss with a succeeding computeFn, get stores the fresh entry. -/
theorem get_full_miss_ok {α ε : Type} (cfg : CacheConfig) (key : String) (v : α)
    (fp : Option String) (fh : String) (now : Int) (s : CacheState α)
    (hm : tierLookup cfg now (generateKey key) s.memoryCache = none)
    (hd : (if cfg.enableDiskCache then tierLookup cfg now (generateKey key) s.disk else none) =
      none) :
    get cfg key (Except.ok v : Except ε α) fp fh now s =
      (Except.ok v,
       set cfg (generateKey key)
         { data := v, timestamp := now,
           hash := if fp.isSome then fh else "", hits := 0 }
         (missState cfg (generateKey key) fp { s with misses := s.misses + 1 })) := by
  unfold CacheManager.get
  rw [hm, hd]

/-- C4 (amended): for every sequence of N get calls against a fresh cache,
totalHits + totalMisses = N, and hitRate is the hit ratio expressed as a
percentage rounded to two decimals — Math.round(totalHits / N * 10000) / 100
— with hitRate 0 when N = 0. -/
theorem stats_accounting {α ε : Type} (cfg : CacheConfig) (ops : List (GetOp α ε)) (t₀ : Int) :
    (getStats cfg (runGets cfg ops (initState α t₀))).totalHits
      + (getStats cfg (runGets cfg ops (initState α t₀))).totalMisses = ops.length
    ∧ (getStats cfg (runGets cfg ops (initState α t₀))).hitRate =
        (if ops.length = 0 then 0
         else (jsRound (((getStats cfg (runGets cfg ops (initState α t₀))).totalHits : ℚ)
             / (ops.length : ℚ) * 10000) : ℚ) / 100) := by
  have hc : (runGets cfg ops (initState α t₀)).hits
      + (runGets cfg ops (initState α t₀)).misses = ops.length := by
    have h₁ := runGets_counters cfg ops (initState α t₀)
    simpa [initState] using h₁
  exact ⟨hc, getStats_hitRate_formula cfg _ ops.length hc⟩

/-- C6: validity is exactly now - createdAt < ttl; a get that finds a
memory-tier entry younger than ttl returns its data for every computeFn
outcome (no recomputation); with no usable memory entry, a disk-tier entry
younger than ttl is likewise returned without recomputation; when every
resident entry for the key has expired, the result is exactly the computeFn
outcome (recomputation); and in general the result is either the computeFn
outcome or the data of a tier entry that is younger than ttl — expired data
is never returned. -/
theorem ttl_correctness {α ε : Type} (cfg : CacheConfig) (s : CacheState α) (key : String)
    (f : Except ε α) (fp : Option String) (fh : String) (now : Int) :
    (∀ e : CacheEntry α, isValid cfg now e = true ↔ now - e.timestamp < cfg.ttl)
    ∧ (∀ e, jsGet (generateKey key) s.memoryCache = some e → now - e.timestamp < cfg.ttl →
        (get cfg key f fp fh now s).1 = Except.ok e.data)
    ∧ (∀ e, (∀ e₁, jsGet (generateKey key) s.memoryCache = some e₁ →
          ¬ now - e₁.timestamp < cfg.ttl) →
        cfg.enableDiskCache = true → jsGet (generateKey key) s.disk = some e →
        now - e.timestamp < cfg.ttl →
        (get cfg key f fp fh now s).1 = Except.ok e.data)
    ∧ ((∀ e, jsGet (generateKey key) s.memoryCache = some e → ¬ now - e.timestamp < cfg.ttl) →
       (∀ e, jsGet (generateKey key) s.disk = some e → ¬ now - e.timestamp < cfg.ttl) →
       (get cfg key f fp fh now s).1 = f)
    ∧ ((get cfg key f fp fh now s).1 = f
       ∨ ∃ e, (jsGet (generateKey key) s.memoryCache = some e
               ∨ (cfg.enableDiskCache = true ∧ jsGet (generateKey key) s.disk = some e))
           ∧ (get cfg key f fp fh now s).1 = Except.ok e.data
           ∧ now - e.timestamp < cfg.ttl) := by
  refine ⟨isValid_true_iff cfg now, ?_, ?_, ?_, ?_⟩
  · intro e hget hv
    have ht : tierLookup cfg now (generateKey key) s.memoryCache = some e :=
      tierLookup_some_iff.mpr ⟨hget, (isValid_true_iff cfg now e).mpr hv⟩
    rw [get_memory_hit cfg key f fp fh now s e ht]
  · intro e hmem hdc hget hv
    have hm : tierLookup cfg now (generateKey key) s.memoryCache = none :=
      tierLookup_none_of (fun e₁ he₁ => (isValid_false_iff cfg now e₁).mpr (hmem e₁ he₁))
    have ht : tierLookup cfg now (generateKey key) s.disk = some e :=
      tierLookup_some_iff.mpr ⟨hget, (isValid_true_iff cfg now e).mpr hv⟩
    have hd : (if cfg.enableDiskCache then tierLookup cfg now (generateKey key) s.disk
               else none) = some e := by
      rw [hdc, if_pos rfl, ht]
    rw [get_disk_hit cfg key f fp fh now s e hm hd]
  · intro hmem hdisk
    have hm : tierLookup cfg now (generateKey key) s.memoryCache = none :=
      tierLookup_none_of (fun e he => (isValid_false_iff cfg now e).mpr (hmem e he))
    have hdn : tierLookup cfg now (generateKey key) s.disk = none :=
      tierLookup_none_of (fun e he => (isValid_false_iff cfg now e).mpr (hdisk e he))
    have hd : (if cfg.enableDiskCache then tierLookup cfg now (generateKey key) s.disk
               else none) = none := by
      cases cfg.enableDiskCache <;> simp [hdn]
    cases f with
    | error err => rw [get_full_miss_error cfg key err fp fh now s hm hd]
    | ok v => rw [get_full_miss_ok cfg key v fp fh now s hm hd]
  · cases hm : tierLookup cfg now (generateKey key) s.memoryCache with
    | some me =>
        obtain ⟨hg, hv⟩ := tierLookup_some_iff.mp hm
        refine Or.inr ⟨me, Or.inl hg, ?_, (isValid_true_iff cfg now me).mp hv⟩
        rw [get_memory_hit cfg key f fp fh now s me hm]
    | none =>
        cases hd : (if cfg.enableDiskCache then tierLookup cfg now (generateKey key) s.disk
                    else none) with
        | some de =>
            have hdc : cfg.enableDiskCache = true := by
              cases hdc₂ : cfg.enableDiskCache
              · rw [hdc₂] at hd
                simp at hd
              · rfl
            have hd₂ : tierLookup cfg now (generateKey key) s.disk = some de := by
              rw [hdc] at hd
              simpa using hd
            obtain ⟨hg, hv⟩ := tierLookup_some_iff.mp hd₂
            refine Or.inr ⟨de, Or.inr ⟨hdc, hg⟩, ?_, (isValid_true_iff cfg now de).mp hv⟩
            rw [get_disk_hit cfg key f fp fh now s de hm hd]
        | none =>
            left
            cases f with
            | error err => rw [get_full_miss_error cfg key err fp fh now s hm hd]
            | ok v => rw [get_full_miss_ok cfg key v fp fh now s hm hd]

/-- A memory entry created at time 0 for logical key "k". -/
def eTtl : CacheEntry Nat := { data := 1, timestamp := 0, hash := "", hits := 0 }

/-- A cache state holding eTtl in the memory tier. -/
def sTtl : CacheState Nat :=
  { memoryCache := [(generateKey "k", eTtl)], disk := [], watchers := [],
    hits := 0, misses := 0, lastClear := 0 }

/-- Witness for ttl_correctness: at time 100 (age 100 < default ttl 300000)
the cached 1 is returned rather than the computeFn outcome 7; on an empty
cache the computeFn outcome 7 is returned. -/
theorem ttl_correctness_witness :
    (get cfgD "k" (Except.ok 7 : Except String Nat) none "" 100 sTtl).1 = Except.ok 1
    ∧ (get cfgD "k" (Except.ok 7 : Except String Nat) none "" 100 (initState Nat 0)).1 =
        Except.ok 7 :=
  ⟨(ttl_correctness cfgD sTtl "k" (Except.ok 7) none "" 100).2.1 eTtl (by decide) (by decide),
   (ttl_correctness cfgD (initState Nat 0) "k" (Except.ok 7) none "" 100).2.2.2.1
     (fun e he => by simp [initState, jsGet] at he)
     (fun e he => by simp [initState, jsGet] at he)⟩

/-- C7: when both tiers miss (or hold only expired entries) for a key, a get
whose computeFn fails returns that error unchanged and leaves the memory
tier, disk tier and watcher registry exactly as they were; a subsequent get
for the same key with a succeeding computeFn returns its value and stores an
entry holding that value in the memory tier, and in the disk tier when disk
caching is enabled. -/
theorem computation_isolation {α ε : Type} (cfg : CacheConfig) (s : CacheState α) (key : String)
    (err : ε) (v : α) (fp : Option String) (fh : String) (now : Int)
    (hmem : ∀ e, jsGet (generateKey key) s.memoryCache = some e → isValid cfg now e = false)
    (hdisk : ∀ e, jsGet (generateKey key) s.disk = some e → isValid cfg now e = false) :
    (get cfg key (Except.error err : Except ε α) fp fh now s).1 = Except.error err
    ∧ (get cfg key (Except.error err : Except ε α) fp fh now s).2.memoryCache = s.memoryCache
    ∧ (get cfg key (Except.error err : Except ε α) fp fh now s).2.disk = s.disk
    ∧ (get cfg key (Except.error err : Except ε α) fp fh now s).2.watchers = s.watchers
    ∧ (get cfg key (Except.ok v : Except ε α) fp fh now
        (get cfg key (Except.error err : Except ε α) fp fh now s).2).1 = Except.ok v
    ∧ ∃ en : CacheEntry α,
        en.data = v
        ∧ jsGet (generateKey key)
            (get cfg key (Except.ok v : Except ε α) fp fh now
              (get cfg key (Except.error err : Except ε α) fp fh now s).2).2.memoryCache = some en
        ∧ (cfg.enableDiskCache = true →
            jsGet (generateKey key)
              (get cfg key (Except.ok v : Except ε α) fp fh now
                (get cfg key (Except.error err : Except ε α) fp fh now s).2).2.disk = some en) := by
  have hm : tierLookup cfg now (generateKey key) s.memoryCache = none :=
    tierLookup_none_of hmem
  have hdn : tierLookup cfg now (generateKey key) s.disk = none :=
    tierLookup_none_of hdisk
  have hd : (if cfg.enableDiskCache then tierLookup cfg now (generateKey key) s.disk
             else none) = none := by
    cases cfg.enableDiskCache <;> simp [hdn]
  have h₁ := get_full_miss_error cfg key err fp fh now s hm hd
  have hm₂ : tierLookup cfg now (generateKey key)
      ({ s with misses := s.misses + 1 } : CacheState α).memoryCache = none := hm
  have hd₂ : (if cfg.enableDiskCache then
      tierLookup cfg now (generateKey key)
        ({ s with misses := s.misses + 1 } : CacheState α).disk else none) = none := hd
  have h₂ := @get_full_miss_ok α ε cfg key v fp fh now
    ({ s with misses := s.misses + 1 } : CacheState α) hm₂ hd₂
  refine ⟨by rw [h₁], by rw [h₁], by rw [h₁], by rw [h₁], by rw [h₁, h₂], ?_⟩
  refine ⟨{ data := v, timestamp := now, hash := if fp.isSome then fh else "", hits := 0 },
    rfl, ?_, ?_⟩
  · rw [h₁, h₂, set_memoryCache]
    exact jsGet_jsSet_self _ _ _
  · intro hdc
    rw [h₁, h₂, set_disk, hdc, if_pos rfl]
    exact jsGet_jsSet_self _ _ _

/-- Witness for computation_isolation on an empty cache: the error "boom"
propagates, and the subsequent get returns 42. -/
theorem computation_isolation_witness :
    (get cfgD "k" (Except.error "boom" : Except String Nat) none "" 5 (initState Nat 0)).1 =
        Except.error "boom"
    ∧ (get cfgD "k" (Except.ok 42 : Except String Nat) none "" 5
        (get cfgD "k" (Except.error "boom" : Except String Nat) none "" 5
          (initState Nat 0)).2).1 = Except.ok 42 :=
  ⟨(computation_isolation cfgD (initState Nat 0) "k" "boom" 42 none "" 5
      (fun e he => by simp [initState, jsGet] at he)
      (fun e he => by simp [initState, jsGet] at he)).1,
   (computation_isolation cfgD (initState Nat 0) "k" "boom" 42 none "" 5
      (fun e he => by simp [initState, jsGet] at he)
      (fun e he => by simp [initState, jsGet] at he)).2.2.2.2.1⟩
